import Mathlib

/-!
Verification of the GGUF header/metadata decoder of `crates/core/src/io/gguf/mod.rs`.

The byte source is modelled as a `List Nat` of bytes read front-to-back; Rust's
`reader.read_exact` of `n` bytes becomes `readBytes n`, which fails when fewer than
`n` bytes remain (Rust's `UnexpectedEof` io error, surfaced as `Truncated`).
Rust's distinct error producers map to the error kinds of the spec's taxonomy:
`read_exact` EOF ↦ `Truncated`, the `"Not valid GGUF"` string ↦ `NotThisFormat`,
the `try_from` error `"invalid gguf metadata type ..."` ↦ `UnknownValueType code`,
`String::from_utf8` failure ↦ `InvalidUtf8`.
Rust `String`s are modelled as their UTF-8 byte sequences (a `List Nat`), with
`String::from_utf8` modelled as validation (`validUtf8`) returning the same bytes.
`f32::from_le_bytes`/`f64::from_le_bytes` are bit-level bijections; float values
carry their 32/64-bit little-endian pattern as a `Nat`.
The recursive value parser is made total with a fuel parameter that decreases
only when entering the elements of an array (one unit per nesting level); fuel
exhaustion returns `Truncated`.  The driver `GGUF.read` supplies fuel
`s.length + 1`, which can never be exhausted, since each nesting level consumes
12 bytes of framing before recursing.
-/

/-- Error kinds of the decoder, one per distinct error producer in the source. -/
inductive GGUFError where
  | Truncated : GGUFError
  | NotThisFormat : GGUFError
  | UnknownValueType : Nat → GGUFError
  | InvalidUtf8 : GGUFError
deriving DecidableEq, Repr

/-- The 13 wire-level value type tags (`GGUfMetadataValueType` in the source). -/
inductive GGUfMetadataValueType where
  | UInt8 : GGUfMetadataValueType
  | Int8 : GGUfMetadataValueType
  | UInt16 : GGUfMetadataValueType
  | Int16 : GGUfMetadataValueType
  | UInt32 : GGUfMetadataValueType
  | Int32 : GGUfMetadataValueType
  | Float32 : GGUfMetadataValueType
  | Bool : GGUfMetadataValueType
  | String : GGUfMetadataValueType
  | Array : GGUfMetadataValueType
  | UInt64 : GGUfMetadataValueType
  | Int64 : GGUfMetadataValueType
  | Float64 : GGUfMetadataValueType
deriving DecidableEq, Repr

/-- `impl TryFrom<u32> for GGUfMetadataValueType`: codes 0..12 map to the 13
discriminants, anything else fails (`UnknownValueType` carrying the code). -/
def GGUfMetadataValueType.try_from (item : Nat) : Except GGUFError GGUfMetadataValueType :=
  match item with
  | 0 => .ok .UInt8
  | 1 => .ok .Int8
  | 2 => .ok .UInt16
  | 3 => .ok .Int16
  | 4 => .ok .UInt32
  | 5 => .ok .Int32
  | 6 => .ok .Float32
  | 7 => .ok .Bool
  | 8 => .ok .String
  | 9 => .ok .Array
  | 10 => .ok .UInt64
  | 11 => .ok .Int64
  | 12 => .ok .Float64
  | _ => .error (.UnknownValueType item)

/-- Decoded metadata values (`GGUFMetadataValue` in the source).  The fields of
Rust's separate `GGUFMetadataArrayValue` struct (`value_type`, `len`, `value`)
are inlined into the `Array` constructor.  Floats carry their LE bit pattern. -/
inductive GGUFMetadataValue where
  | Uint8 : Nat → GGUFMetadataValue
  | Int8 : Int → GGUFMetadataValue
  | Uint16 : Nat → GGUFMetadataValue
  | Int16 : Int → GGUFMetadataValue
  | Uint32 : Nat → GGUFMetadataValue
  | Int32 : Int → GGUFMetadataValue
  | Float32 : Nat → GGUFMetadataValue
  | Uint64 : Nat → GGUFMetadataValue
  | Int64 : Int → GGUFMetadataValue
  | Float64 : Nat → GGUFMetadataValue
  | Bool : (v : Bool) → GGUFMetadataValue
  | String : (bytes : List Nat) → GGUFMetadataValue
  | Array : (value_type : GGUfMetadataValueType) → (len : Nat) →
      (value : List GGUFMetadataValue) → GGUFMetadataValue

/-- One metadata table entry (`GGUFMetadata` in the source); `key` is the
UTF-8 byte sequence of the Rust `String`. -/
structure GGUFMetadata where
  key : List Nat
  value_type : GGUfMetadataValueType
  value : GGUFMetadataValue

/-- The container (`GGUF` struct in the source). -/
structure GGUF where
  version : Nat
  tensor_count : Nat
  metadata_kv_count : Nat
  metadata_kv : List GGUFMetadata

/-- `GGUF::new()`: the container starts empty. -/
def GGUF.new : GGUF := ⟨0, 0, 0, []⟩

/-- Little-endian value of a byte list (`uN::from_le_bytes`). -/
def leBytes (l : List Nat) : Nat := l.foldr (fun b acc => b + 256 * acc) 0

/-- Two's-complement reinterpretation of a `width`-bit pattern
(`iN::from_le_bytes` composed with `leBytes`). -/
def toSigned (width v : Nat) : Int :=
  if v < 2 ^ (width - 1) then (v : Int) else (v : Int) - 2 ^ width

/-- `width`-byte little-endian encoding of `v` (test-side encoder). -/
def leN : Nat → Nat → List Nat
  | 0, _ => []
  | w + 1, v => v % 256 :: leN w (v / 256)

/-- `reader.read_exact` of an `n`-byte buffer: consume exactly `n` bytes or
fail with `Truncated` (Rust's `UnexpectedEof` io error). -/
def readBytes (n : Nat) (s : List Nat) : Except GGUFError (List Nat × List Nat) :=
  if n ≤ s.length then .ok (s.take n, s.drop n) else .error .Truncated

/-- Sequencing of one decode step with the rest of the decode; this is Rust's
`?` operator on the byte-consuming steps. -/
def pstep {α β : Type} (x : Except GGUFError (α × List Nat))
    (k : α → List Nat → Except GGUFError (β × List Nat)) : Except GGUFError (β × List Nat) :=
  match x with
  | .error e => .error e
  | .ok (a, s) => k a s

/-- UTF-8 continuation byte (`0x80`–`0xBF`). -/
def utf8Cont (b : Nat) : Bool := decide (128 ≤ b ∧ b ≤ 191)

/-- UTF-8 well-formedness of a byte sequence, exactly the check performed by
Rust's `String::from_utf8` (RFC 3629: no overlong forms, no surrogates,
no code points above U+10FFFF). -/
def validUtf8 : List Nat → Bool
  | [] => true
  | b :: rest =>
    if b < 128 then validUtf8 rest
    else
      match rest with
      | [] => false
      | c1 :: r1 =>
        if 194 ≤ b ∧ b ≤ 223 then
          if utf8Cont c1 then validUtf8 r1 else false
        else
          match r1 with
          | [] => false
          | c2 :: r2 =>
            if b = 224 then
              if (160 ≤ c1 ∧ c1 ≤ 191) ∧ utf8Cont c2 then validUtf8 r2 else false
            else if (225 ≤ b ∧ b ≤ 236) ∨ b = 238 ∨ b = 239 then
              if utf8Cont c1 ∧ utf8Cont c2 then validUtf8 r2 else false
            else if b = 237 then
              if (128 ≤ c1 ∧ c1 ≤ 159) ∧ utf8Cont c2 then validUtf8 r2 else false
            else
              match r2 with
              | [] => false
              | c3 :: r3 =>
                if b = 240 then
                  if (144 ≤ c1 ∧ c1 ≤ 191) ∧ utf8Cont c2 ∧ utf8Cont c3 then validUtf8 r3
                  else false
                else if 241 ≤ b ∧ b ≤ 243 then
                  if utf8Cont c1 ∧ utf8Cont c2 ∧ utf8Cont c3 then validUtf8 r3 else false
                else if b = 244 then
                  if (128 ≤ c1 ∧ c1 ≤ 143) ∧ utf8Cont c2 ∧ utf8Cont c3 then validUtf8 r3
                  else false
                else false

/-- The `for _ in 0..length { value.push(self.parse_metadata_value(...)?) }` loop
of the `Array` arm, generic in the element parser `pv`. -/
def parse_array_values (pv : List Nat → Except GGUFError (GGUFMetadataValue × List Nat)) :
    Nat → List Nat → Except GGUFError (List GGUFMetadataValue × List Nat)
  | 0, s => .ok ([], s)
  | n + 1, s =>
    pstep (pv s) fun v s =>
      pstep (parse_array_values pv n s) fun vs s => .ok (v :: vs, s)

/-- `GGUF::parse_metadata_value`: tag-dispatched recursive value decoder.
The extra `fuel` argument makes the array recursion total; it decreases by one
per array-nesting level, and fuel `0` answers `Truncated` (the driver passes
`stream length + 1`, which is never exhausted since each nesting level consumes
12 bytes of framing first). -/
def GGUF.parse_metadata_value :
    Nat → GGUfMetadataValueType → List Nat → Except GGUFError (GGUFMetadataValue × List Nat)
  | 0, _, _ => .error .Truncated
  | fuel + 1, value_type, s =>
    match value_type with
    | .UInt8 => pstep (readBytes 1 s) fun v s => .ok (.Uint8 (leBytes v), s)
    | .Int8 => pstep (readBytes 1 s) fun v s => .ok (.Int8 (toSigned 8 (leBytes v)), s)
    | .UInt16 => pstep (readBytes 2 s) fun v s => .ok (.Uint16 (leBytes v), s)
    | .Int16 => pstep (readBytes 2 s) fun v s => .ok (.Int16 (toSigned 16 (leBytes v)), s)
    | .UInt32 => pstep (readBytes 4 s) fun v s => .ok (.Uint32 (leBytes v), s)
    | .Int32 => pstep (readBytes 4 s) fun v s => .ok (.Int32 (toSigned 32 (leBytes v)), s)
    | .Float32 => pstep (readBytes 4 s) fun v s => .ok (.Float32 (leBytes v), s)
    | .Bool => pstep (readBytes 1 s) fun v s => .ok (.Bool (leBytes v != 0), s)
    | .String =>
      pstep (readBytes 8 s) fun value_length s =>
        pstep (readBytes (leBytes value_length) s) fun value s =>
          if validUtf8 value then .ok (.String value, s) else .error .InvalidUtf8
    | .Array =>
      pstep (readBytes 4 s) fun vt s =>
        match GGUfMetadataValueType.try_from (leBytes vt) with
        | .error e => .error e
        | .ok elem_type =>
          pstep (readBytes 8 s) fun value_length s =>
            pstep (parse_array_values (GGUF.parse_metadata_value fuel elem_type)
                (leBytes value_length) s) fun values s =>
              .ok (.Array elem_type (leBytes value_length) values, s)
    | .UInt64 => pstep (readBytes 8 s) fun v s => .ok (.Uint64 (leBytes v), s)
    | .Int64 => pstep (readBytes 8 s) fun v s => .ok (.Int64 (toSigned 64 (leBytes v)), s)
    | .Float64 => pstep (readBytes 8 s) fun v s => .ok (.Float64 (leBytes v), s)

/-- One iteration of the `GGUF::parse_metadata_kv` loop: key length, key bytes,
UTF-8 validation, type tag, tag lookup, value decode. -/
def GGUF.parse_one_metadata_kv (fuel : Nat) (s : List Nat) :
    Except GGUFError (GGUFMetadata × List Nat) :=
  pstep (readBytes 8 s) fun key_length s =>
    pstep (readBytes (leBytes key_length) s) fun key s =>
      if validUtf8 key then
        pstep (readBytes 4 s) fun vt s =>
          match GGUfMetadataValueType.try_from (leBytes vt) with
          | .error e => .error e
          | .ok value_type =>
            pstep (GGUF.parse_metadata_value fuel value_type s) fun value s =>
              .ok (⟨key, value_type, value⟩, s)
      else .error .InvalidUtf8

/-- The `for _ in 0..self.metadata_kv_count` loop of `GGUF::parse_metadata_kv`:
each decoded entry is pushed onto `metadata_kv`; the mutated container is
returned even on error (Rust's `&mut self` is never rolled back). -/
def GGUF.parse_metadata_kv_loop (fuel : Nat) :
    Nat → GGUF → List Nat → GGUF × Except GGUFError (List Nat)
  | 0, g, s => (g, .ok s)
  | count + 1, g, s =>
    match GGUF.parse_one_metadata_kv fuel s with
    | .error e => (g, .error e)
    | .ok (entry, s) =>
      GGUF.parse_metadata_kv_loop fuel count
        { g with metadata_kv := g.metadata_kv ++ [entry] } s

/-- `GGUF::parse_metadata_kv`: loop `self.metadata_kv_count` times. -/
def GGUF.parse_metadata_kv (fuel : Nat) (g : GGUF) (s : List Nat) :
    GGUF × Except GGUFError (List Nat) :=
  GGUF.parse_metadata_kv_loop fuel g.metadata_kv_count g s

/-- `GGUF::read`: 8-byte read of magic+version, the magic comparison exactly as
written in the source (`&&`-combined inequalities, so it fails only when all
four bytes differ), then tensor count, metadata count, and the metadata loop. -/
def GGUF.read (g : GGUF) (s : List Nat) : GGUF × Except GGUFError (List Nat) :=
  match readBytes 8 s with
  | .error e => (g, .error e)
  | .ok (header, s1) =>
    if header.getD 0 0 ≠ 71 ∧ header.getD 1 0 ≠ 71 ∧ header.getD 2 0 ≠ 85 ∧
        header.getD 3 0 ≠ 70 then
      (g, .error .NotThisFormat)
    else
      let g := { g with version := leBytes (header.drop 4) }
      match readBytes 8 s1 with
      | .error e => (g, .error e)
      | .ok (h2, s2) =>
        let g := { g with tensor_count := leBytes h2 }
        match readBytes 8 s2 with
        | .error e => (g, .error e)
        | .ok (h3, s3) =>
          let g := { g with metadata_kv_count := leBytes h3 }
          GGUF.parse_metadata_kv (s.length + 1) g s3

/-- The caller-facing construction: build a fresh container, run `read`, and
hand the container back only on success (callers of `GGUF::read` observe the
populated `self` only behind an `Ok`). -/
def GGUF.read_result (s : List Nat) : Except GGUFError GGUF :=
  match GGUF.read GGUF.new s with
  | (g, .ok _) => .ok g
  | (_, .error e) => .error e

/-! ### Truncation propagation

`truncResult s r v m` is the outcome of re-running, on the truncated stream
`s.take m`, a decode step that on `s` succeeded with value `v` and remainder
`r`: if the truncation point falls before the bytes the step consumed, the
step fails with `Truncated`; otherwise it succeeds identically and the
remainder is truncated accordingly. -/

def truncResult {α : Type} (s r : List Nat) (v : α) (m : Nat) :
    Except GGUFError (α × List Nat) :=
  if m + r.length < s.length then .error .Truncated
  else .ok (v, r.take (m + r.length - s.length))

/-- A decode step propagates truncation: wherever it succeeds, running it on
any prefix of the stream either fails with `Truncated` (truncation point
inside the consumed bytes) or succeeds with the same value. -/
def TLprop {α : Type} (P : List Nat → Except GGUFError (α × List Nat)) : Prop :=
  ∀ s v r, P s = .ok (v, r) → r.length ≤ s.length ∧ ∀ m, P (s.take m) = truncResult s r v m

/-- The discriminant (tag) of a decoded value. -/
def GGUFMetadataValue.discr : GGUFMetadataValue → GGUfMetadataValueType
  | .Uint8 _ => .UInt8
  | .Int8 _ => .Int8
  | .Uint16 _ => .UInt16
  | .Int16 _ => .Int16
  | .Uint32 _ => .UInt32
  | .Int32 _ => .Int32
  | .Float32 _ => .Float32
  | .Uint64 _ => .UInt64
  | .Int64 _ => .Int64
  | .Float64 _ => .Float64
  | .Bool _ => .Bool
  | .String _ => .String
  | .Array _ _ _ => .Array

/-- Sequential decode of `count` entries from the stream, in file order:
entry `i + 1` is decoded from the bytes left over after entry `i`. -/
def decode_in_file_order (fuel : Nat) :
    Nat → List Nat → Except GGUFError (List GGUFMetadata × List Nat)
  | 0, s => .ok ([], s)
  | count + 1, s =>
    pstep (GGUF.parse_one_metadata_kv fuel s) fun entry s =>
      pstep (decode_in_file_order fuel count s) fun es s => .ok (entry :: es, s)

/-- The §8 round-trip scenario stream: magic, version 3, 0 tensors, one entry
`{key: "answer", type: Int32, value: 42}`. -/
def sampleStream : List Nat :=
  [71, 71, 85, 70, 3, 0, 0, 0,
   0, 0, 0, 0, 0, 0, 0, 0,
   1, 0, 0, 0, 0, 0, 0, 0,
   6, 0, 0, 0, 0, 0, 0, 0,
   97, 110, 115, 119, 101, 114,
   5, 0, 0, 0,
   42, 0, 0, 0]

/-! ### Basic lemmas about the byte-level helpers -/

theorem leN_length (w v : Nat) : (leN w v).length = w := by
  induction w generalizing v with
  | zero => rfl
  | succ w ih => simp [leN, ih]

theorem leBytes_leN (w v : Nat) (h : v < 256 ^ w) : leBytes (leN w v) = v := by
  induction w generalizing v with
  | zero => simp at h; simp [leN, leBytes, h]
  | succ w ih =>
    have hd : v / 256 < 256 ^ w := by
      apply Nat.div_lt_of_lt_mul
      rw [pow_succ] at h
      omega
    have := ih (v / 256) hd
    simp only [leN, leBytes, List.foldr] at this ⊢
    omega

theorem readBytes_exact_append (n : Nat) (a b : List Nat) (h : a.length = n) :
    readBytes n (a ++ b) = .ok (a, b) := by
  subst h
  unfold readBytes
  rw [if_pos (by simp)]
  simp

theorem pstep_ok {α β : Type} {x : Except GGUFError (α × List Nat)}
    {k : α → List Nat → Except GGUFError (β × List Nat)} {v : β} {r : List Nat}
    (h : pstep x k = .ok (v, r)) : ∃ a s1, x = .ok (a, s1) ∧ k a s1 = .ok (v, r) := by
  cases x with
  | error e => simp [pstep] at h
  | ok p => exact ⟨p.1, p.2, rfl, h⟩


theorem TLprop_readBytes (n : Nat) : TLprop (readBytes n) := by
  intro s v r h
  unfold readBytes at h
  by_cases hn : n ≤ s.length
  · rw [if_pos hn] at h
    simp only [Except.ok.injEq, Prod.mk.injEq] at h
    obtain ⟨hv, hr⟩ := h
    subst hv; subst hr
    refine ⟨by simp, ?_⟩
    intro m
    unfold readBytes truncResult
    simp only [List.length_drop]
    by_cases hm : m + (s.length - n) < s.length
    · rw [if_pos hm, if_neg (by simp [List.length_take]; omega)]
    · have hmn : n ≤ m := by omega
      rw [if_neg hm, if_pos (by simp [List.length_take]; omega)]
      rw [List.take_take, List.drop_take]
      have e1 : min n m = n := by omega
      have e2 : m - n = m + (s.length - n) - s.length := by omega
      rw [e1, e2]
  · rw [if_neg hn] at h
    exact absurd h (by simp)

theorem TLprop_pure {β : Type} (b : β) : TLprop (fun s => .ok (b, s)) := by
  intro s v r h
  simp only [Except.ok.injEq, Prod.mk.injEq] at h
  obtain ⟨hv, hr⟩ := h
  subst hv; subst hr
  refine ⟨le_refl _, ?_⟩
  intro m
  unfold truncResult
  rw [if_neg (by omega)]
  congr 2
  omega

theorem TLprop_err {β : Type} (e : GGUFError) :
    TLprop (fun (_ : List Nat) => (.error e : Except GGUFError (β × List Nat))) := by
  intro s v r h
  exact absurd h (by simp)

theorem TL_pstep {α β : Type} {P : List Nat → Except GGUFError (α × List Nat)}
    {k : α → List Nat → Except GGUFError (β × List Nat)}
    (hP : TLprop P) (hk : ∀ a, TLprop (k a)) :
    TLprop (fun s => pstep (P s) k) := by
  intro s v r h
  obtain ⟨a, s1, hx, hky⟩ := pstep_ok h
  obtain ⟨h1len, h1⟩ := hP s a s1 hx
  obtain ⟨h2len, h2⟩ := hk a s1 v r hky
  refine ⟨by omega, ?_⟩
  intro m
  show pstep (P (s.take m)) k = truncResult s r v m
  rw [h1 m]
  unfold truncResult
  by_cases hc : m + s1.length < s.length
  · rw [if_pos hc]
    rw [if_pos (by omega)]
    rfl
  · rw [if_neg hc]
    show k a (s1.take (m + s1.length - s.length)) = _
    rw [h2 (m + s1.length - s.length)]
    unfold truncResult
    by_cases hc2 : m + s1.length - s.length + r.length < s1.length
    · rw [if_pos hc2, if_pos (by omega)]
    · rw [if_neg hc2, if_neg (by omega)]
      have e1 : m + s1.length - s.length + r.length - s1.length = m + r.length - s.length := by
        omega
      rw [e1]

theorem TLprop_ite {β : Type} (c : Prop) [Decidable c]
    (P Q : List Nat → Except GGUFError (β × List Nat)) (hP : TLprop P) (hQ : TLprop Q) :
    TLprop (fun s => if c then P s else Q s) := by
  by_cases h : c
  · simpa [h] using hP
  · simpa [h] using hQ

theorem parse_array_values_TL {pv : List Nat → Except GGUFError (GGUFMetadataValue × List Nat)}
    (hpv : TLprop pv) : ∀ n, TLprop (parse_array_values pv n) := by
  intro n
  induction n with
  | zero => exact fun s v r h => TLprop_pure ([] : List GGUFMetadataValue) s v r h
  | succ n ih =>
    exact fun s v r h =>
      TL_pstep hpv (fun a => TL_pstep ih (fun vs => TLprop_pure (a :: vs))) s v r h

/-- Truncation propagation for the recursive value decoder: for every fuel and
tag, wherever `parse_metadata_value` succeeds, running it on a prefix of the
stream either fails with `Truncated` or succeeds identically. -/
theorem parse_metadata_value_TL : ∀ fuel t, TLprop (GGUF.parse_metadata_value fuel t) := by
  intro fuel
  induction fuel with
  | zero =>
    intro t s v r h
    exact absurd h (by simp [GGUF.parse_metadata_value])
  | succ fuel ih =>
    intro t
    cases t with
    | UInt8 =>
      exact fun s v r h => TL_pstep (TLprop_readBytes 1) (fun a => TLprop_pure _) s v r h
    | Int8 =>
      exact fun s v r h => TL_pstep (TLprop_readBytes 1) (fun a => TLprop_pure _) s v r h
    | UInt16 =>
      exact fun s v r h => TL_pstep (TLprop_readBytes 2) (fun a => TLprop_pure _) s v r h
    | Int16 =>
      exact fun s v r h => TL_pstep (TLprop_readBytes 2) (fun a => TLprop_pure _) s v r h
    | UInt32 =>
      exact fun s v r h => TL_pstep (TLprop_readBytes 4) (fun a => TLprop_pure _) s v r h
    | Int32 =>
      exact fun s v r h => TL_pstep (TLprop_readBytes 4) (fun a => TLprop_pure _) s v r h
    | Float32 =>
      exact fun s v r h => TL_pstep (TLprop_readBytes 4) (fun a => TLprop_pure _) s v r h
    | Bool =>
      exact fun s v r h => TL_pstep (TLprop_readBytes 1) (fun a => TLprop_pure _) s v r h
    | UInt64 =>
      exact fun s v r h => TL_pstep (TLprop_readBytes 8) (fun a => TLprop_pure _) s v r h
    | Int64 =>
      exact fun s v r h => TL_pstep (TLprop_readBytes 8) (fun a => TLprop_pure _) s v r h
    | Float64 =>
      exact fun s v r h => TL_pstep (TLprop_readBytes 8) (fun a => TLprop_pure _) s v r h
    | String =>
      refine fun s v r h => TL_pstep (TLprop_readBytes 8) (fun lb => ?_) s v r h
      refine TL_pstep (TLprop_readBytes (leBytes lb)) (fun val => ?_)
      exact TLprop_ite _ _ _ (TLprop_pure _) (TLprop_err .InvalidUtf8)
    | Array =>
      refine fun s v r h => TL_pstep (TLprop_readBytes 4) (fun vt => ?_) s v r h
      show TLprop (fun s1 =>
        match GGUfMetadataValueType.try_from (leBytes vt) with
        | .error e => .error e
        | .ok elem_type =>
          pstep (readBytes 8 s1) fun value_length s1 =>
            pstep (parse_array_values (GGUF.parse_metadata_value fuel elem_type)
                (leBytes value_length) s1) fun values s1 =>
              .ok (.Array elem_type (leBytes value_length) values, s1))
      cases htf : GGUfMetadataValueType.try_from (leBytes vt) with
      | error e => simpa [htf] using TLprop_err (β := GGUFMetadataValue) e
      | ok elem_type =>
        simp only [htf]
        refine TL_pstep (TLprop_readBytes 8) (fun lb => ?_)
        exact TL_pstep (parse_array_values_TL (ih elem_type) (leBytes lb))
          (fun vs => TLprop_pure _)

/-- Truncation propagation for one key/type/value entry parse. -/
theorem parse_one_metadata_kv_TL (fuel : Nat) : TLprop (GGUF.parse_one_metadata_kv fuel) := by
  refine fun s v r h => TL_pstep (TLprop_readBytes 8) (fun kl => ?_) s v r h
  refine TL_pstep (TLprop_readBytes (leBytes kl)) (fun key => ?_)
  show TLprop (fun s1 =>
    if validUtf8 key then
      pstep (readBytes 4 s1) fun vt s1 =>
        match GGUfMetadataValueType.try_from (leBytes vt) with
        | .error e => .error e
        | .ok value_type =>
          pstep (GGUF.parse_metadata_value fuel value_type s1) fun value s1 =>
            .ok (⟨key, value_type, value⟩, s1)
    else .error .InvalidUtf8)
  refine TLprop_ite _ _ _ ?_ (TLprop_err .InvalidUtf8)
  refine TL_pstep (TLprop_readBytes 4) (fun vt => ?_)
  show TLprop (fun s1 =>
    match GGUfMetadataValueType.try_from (leBytes vt) with
    | .error e => .error e
    | .ok value_type =>
      pstep (GGUF.parse_metadata_value fuel value_type s1) fun value s1 =>
        .ok (⟨key, value_type, value⟩, s1))
  cases htf : GGUfMetadataValueType.try_from (leBytes vt) with
  | error e => simpa [htf] using TLprop_err (β := GGUFMetadata) e
  | ok value_type =>
    simp only [htf]
    exact TL_pstep (parse_metadata_value_TL fuel value_type) (fun value => TLprop_pure _)

/-- Truncation propagation for the metadata loop (at a fixed fuel): wherever
the loop succeeds, running it on a prefix of its stream fails with `Truncated`
when the truncation point falls inside the consumed bytes, and succeeds
identically otherwise. -/
theorem parse_metadata_kv_loop_TL (fuel : Nat) :
    ∀ (count : Nat) (g g' : GGUF) (s r : List Nat),
      GGUF.parse_metadata_kv_loop fuel count g s = (g', .ok r) →
      r.length ≤ s.length ∧ ∀ m,
        (m + r.length < s.length →
          ∃ g2, GGUF.parse_metadata_kv_loop fuel count g (s.take m) = (g2, .error .Truncated)) ∧
        (s.length ≤ m + r.length →
          GGUF.parse_metadata_kv_loop fuel count g (s.take m) =
            (g', .ok (r.take (m + r.length - s.length)))) := by
  intro count
  induction count with
  | zero =>
    intro g g' s r h
    simp only [GGUF.parse_metadata_kv_loop, Prod.mk.injEq, Except.ok.injEq] at h
    obtain ⟨hg, hr⟩ := h
    subst hg; subst hr
    refine ⟨le_refl _, fun m => ⟨fun hm => absurd hm (by omega), fun hm => ?_⟩⟩
    rw [show m + s.length - s.length = m from by omega]
    rfl
  | succ count ih =>
    intro g g' s r h
    simp only [GGUF.parse_metadata_kv_loop] at h
    cases hpo : GGUF.parse_one_metadata_kv fuel s with
    | error e => rw [hpo] at h; exact absurd h (by simp)
    | ok p =>
      rw [hpo] at h
      obtain ⟨entry, s1⟩ := p
      obtain ⟨hlen1, h1⟩ := parse_one_metadata_kv_TL fuel s entry s1 hpo
      obtain ⟨hlen2, ih'⟩ := ih _ g' s1 r h
      refine ⟨by omega, fun m => ?_⟩
      have hstep : ∀ x, GGUF.parse_metadata_kv_loop fuel (count + 1) g x =
          match GGUF.parse_one_metadata_kv fuel x with
          | .error e => (g, .error e)
          | .ok (entry, s) =>
            GGUF.parse_metadata_kv_loop fuel count
              { g with metadata_kv := g.metadata_kv ++ [entry] } s := fun _ => rfl
      constructor
      · intro hm
        rw [hstep, h1 m]
        unfold truncResult
        by_cases hc : m + s1.length < s.length
        · rw [if_pos hc]
          exact ⟨g, rfl⟩
        · rw [if_neg hc]
          obtain ⟨g2, hg2⟩ := (ih' (m + s1.length - s.length)).1 (by omega)
          exact ⟨g2, hg2⟩
      · intro hm
        rw [hstep, h1 m]
        unfold truncResult
        rw [if_neg (by omega)]
        have h2 := (ih' (m + s1.length - s.length)).2 (by omega)
        rw [show m + s1.length - s.length + r.length - s1.length = m + r.length - s.length
          from by omega] at h2
        exact h2

/-! ### Fuel approximation

Results at a smaller fuel agree with results at a larger fuel except that they
may degrade to `Truncated` (the fuel-exhaustion answer). -/

theorem FA_pstep2 {α β : Type} {x1 x2 : Except GGUFError (α × List Nat)}
    {k1 k2 : α → List Nat → Except GGUFError (β × List Nat)}
    (hx : x1 = x2 ∨ x1 = .error .Truncated)
    (hk : ∀ a s, k1 a s = k2 a s ∨ k1 a s = .error .Truncated) :
    pstep x1 k1 = pstep x2 k2 ∨ pstep x1 k1 = .error .Truncated := by
  rcases hx with h | h
  · subst h
    cases x1 with
    | error e => left; rfl
    | ok p =>
      obtain ⟨a, s⟩ := p
      exact hk a s
  · rw [h]
    right
    rfl

theorem parse_array_values_FA
    {pv1 pv2 : List Nat → Except GGUFError (GGUFMetadataValue × List Nat)}
    (hpv : ∀ s, pv1 s = pv2 s ∨ pv1 s = .error .Truncated) :
    ∀ n s, parse_array_values pv1 n s = parse_array_values pv2 n s ∨
      parse_array_values pv1 n s = .error .Truncated := by
  intro n
  induction n with
  | zero => intro s; left; rfl
  | succ n ih =>
    intro s
    exact FA_pstep2 (hpv s) (fun a t => FA_pstep2 (ih t) (fun vs u => Or.inl rfl))

theorem parse_metadata_value_FA :
    ∀ f1 f2 t s, f1 ≤ f2 →
      GGUF.parse_metadata_value f1 t s = GGUF.parse_metadata_value f2 t s ∨
      GGUF.parse_metadata_value f1 t s = .error .Truncated := by
  intro f1
  induction f1 with
  | zero => intro f2 t s _; right; rfl
  | succ f1 ih =>
    intro f2 t s h12
    obtain ⟨f2', rfl⟩ : ∃ f2', f2 = f2' + 1 := ⟨f2 - 1, by omega⟩
    have h12' : f1 ≤ f2' := by omega
    cases t with
    | UInt8 => left; rfl
    | Int8 => left; rfl
    | UInt16 => left; rfl
    | Int16 => left; rfl
    | UInt32 => left; rfl
    | Int32 => left; rfl
    | Float32 => left; rfl
    | Bool => left; rfl
    | UInt64 => left; rfl
    | Int64 => left; rfl
    | Float64 => left; rfl
    | String => left; rfl
    | Array =>
      show pstep (readBytes 4 s) _ = pstep (readBytes 4 s) _ ∨ _
      refine FA_pstep2 (Or.inl rfl) fun vt s1 => ?_
      cases htf : GGUfMetadataValueType.try_from (leBytes vt) with
      | error e => left; simp only [htf]
      | ok elem_type =>
        simp only [htf]
        refine FA_pstep2 (Or.inl rfl) fun lb s2 => ?_
        exact FA_pstep2
          (parse_array_values_FA (fun u => ih f2' elem_type u h12') (leBytes lb) s2)
          (fun vs s3 => Or.inl rfl)

theorem parse_one_metadata_kv_FA :
    ∀ f1 f2 s, f1 ≤ f2 →
      GGUF.parse_one_metadata_kv f1 s = GGUF.parse_one_metadata_kv f2 s ∨
      GGUF.parse_one_metadata_kv f1 s = .error .Truncated := by
  intro f1 f2 s h12
  show pstep (readBytes 8 s) _ = pstep (readBytes 8 s) _ ∨ _
  refine FA_pstep2 (Or.inl rfl) fun kl s1 => ?_
  refine FA_pstep2 (Or.inl rfl) fun key s2 => ?_
  by_cases hu : validUtf8 key
  · simp only [hu, if_true]
    refine FA_pstep2 (Or.inl rfl) fun vt s3 => ?_
    cases htf : GGUfMetadataValueType.try_from (leBytes vt) with
    | error e => left; simp only [htf]
    | ok value_type =>
      simp only [htf]
      exact FA_pstep2 (parse_metadata_value_FA f1 f2 value_type s3 h12)
        (fun v s4 => Or.inl rfl)
  · simp only [hu, if_false]
    left
    rfl

theorem parse_metadata_kv_loop_FA :
    ∀ f1 f2 c g s, f1 ≤ f2 →
      GGUF.parse_metadata_kv_loop f1 c g s = GGUF.parse_metadata_kv_loop f2 c g s ∨
      (GGUF.parse_metadata_kv_loop f1 c g s).2 = .error .Truncated := by
  intro f1 f2 c
  induction c with
  | zero => intro g s _; left; rfl
  | succ c ih =>
    intro g s h12
    have hstep : ∀ f x, GGUF.parse_metadata_kv_loop f (c + 1) g x =
        match GGUF.parse_one_metadata_kv f x with
        | .error e => (g, .error e)
        | .ok (entry, s) =>
          GGUF.parse_metadata_kv_loop f c
            { g with metadata_kv := g.metadata_kv ++ [entry] } s := fun _ _ => rfl
    rcases parse_one_metadata_kv_FA f1 f2 s h12 with he | he
    · rw [hstep f1, hstep f2, he]
      cases GGUF.parse_one_metadata_kv f2 s with
      | error e => left; rfl
      | ok p =>
        obtain ⟨entry, s1⟩ := p
        exact ih _ s1 h12
    · right
      rw [hstep f1, he]

/-- Package "the second component is this error" as an existential over the
first component. -/
theorem exists_of_snd {p : GGUF × Except GGUFError (List Nat)} {e : GGUFError}
    (h : p.2 = .error e) : ∃ g2, p = (g2, .error e) :=
  ⟨p.1, by rw [← h]⟩

/-- **C3.** Truncating a stream on which `GGUF::read` succeeds — at any byte
boundary strictly before the last byte the read consumed — makes `GGUF::read`
fail with `Truncated`, never succeed and never yield any other error kind.
(`r` is the unread remainder of the stream, so `s.length - r.length` is the
logical end of the encoded container.) -/
theorem C3_truncation_yields_Truncated (g : GGUF) (s : List Nat) (g' : GGUF) (r : List Nat)
    (h : GGUF.read g s = (g', .ok r)) :
    ∀ m, m + r.length < s.length →
      ∃ g2, GGUF.read g (s.take m) = (g2, .error .Truncated) := by
  intro m hm
  simp only [GGUF.read] at h
  cases hrb1 : readBytes 8 s with
  | error e => simp [hrb1] at h
  | ok p1 =>
    obtain ⟨header, s1⟩ := p1
    simp only [hrb1] at h
    by_cases hmag : header.getD 0 0 ≠ 71 ∧ header.getD 1 0 ≠ 71 ∧ header.getD 2 0 ≠ 85 ∧
        header.getD 3 0 ≠ 70
    · rw [if_pos hmag] at h
      exact absurd h (by simp)
    · rw [if_neg hmag] at h
      cases hrb2 : readBytes 8 s1 with
      | error e => simp [hrb2] at h
      | ok p2 =>
        obtain ⟨h2, s2⟩ := p2
        simp only [hrb2] at h
        cases hrb3 : readBytes 8 s2 with
        | error e => simp [hrb3] at h
        | ok p3 =>
          obtain ⟨h3, s3⟩ := p3
          simp only [hrb3] at h
          obtain ⟨hl1, ht1⟩ := TLprop_readBytes 8 s header s1 hrb1
          obtain ⟨hl2, ht2⟩ := TLprop_readBytes 8 s1 h2 s2 hrb2
          obtain ⟨hl3, ht3⟩ := TLprop_readBytes 8 s2 h3 s3 hrb3
          obtain ⟨hlr, hloopm⟩ := parse_metadata_kv_loop_TL (s.length + 1) (leBytes h3)
            _ g' s3 r h
          have hlen : (s.take m).length = m := by
            rw [List.length_take]
            omega
          by_cases hc1 : m + s1.length < s.length
          · have hb1 : readBytes 8 (s.take m) = .error .Truncated := by
              rw [ht1 m]
              unfold truncResult
              rw [if_pos hc1]
            apply exists_of_snd
            simp only [GGUF.read, hb1]
          · have hb1 : readBytes 8 (s.take m) =
                .ok (header, s1.take (m + s1.length - s.length)) := by
              rw [ht1 m]
              unfold truncResult
              rw [if_neg hc1]
            by_cases hc2 : (m + s1.length - s.length) + s2.length < s1.length
            · have hb2 : readBytes 8 (s1.take (m + s1.length - s.length)) =
                  .error .Truncated := by
                rw [ht2 _]
                unfold truncResult
                rw [if_pos hc2]
              apply exists_of_snd
              simp only [GGUF.read, hb1]
              rw [if_neg hmag]
              simp only [hb2]
            · have hb2 : readBytes 8 (s1.take (m + s1.length - s.length)) =
                  .ok (h2, s2.take (m + s1.length - s.length + s2.length - s1.length)) := by
                rw [ht2 _]
                unfold truncResult
                rw [if_neg hc2]
              by_cases hc3 : (m + s1.length - s.length + s2.length - s1.length) + s3.length <
                  s2.length
              · have hb3 : readBytes 8
                    (s2.take (m + s1.length - s.length + s2.length - s1.length)) =
                    .error .Truncated := by
                  rw [ht3 _]
                  unfold truncResult
                  rw [if_pos hc3]
                apply exists_of_snd
                simp only [GGUF.read, hb1]
                rw [if_neg hmag]
                simp only [hb2, hb3]
              · have hb3 : readBytes 8
                    (s2.take (m + s1.length - s.length + s2.length - s1.length)) =
                    .ok (h3, s3.take
                      (m + s1.length - s.length + s2.length - s1.length + s3.length -
                        s2.length)) := by
                  rw [ht3 _]
                  unfold truncResult
                  rw [if_neg hc3]
                obtain ⟨g2, hg2⟩ := (hloopm
                  (m + s1.length - s.length + s2.length - s1.length + s3.length - s2.length)).1
                  (by omega)
                rcases parse_metadata_kv_loop_FA (m + 1) (s.length + 1) (leBytes h3)
                  { g with version := leBytes (header.drop 4), tensor_count := leBytes h2, metadata_kv_count := leBytes h3 }
                  (s3.take
                    (m + s1.length - s.length + s2.length - s1.length + s3.length - s2.length))
                  (by omega) with hfa | hfa
                · apply exists_of_snd
                  simp only [GGUF.read, hb1]
                  rw [if_neg hmag]
                  simp only [hb2, hb3, hlen]
                  exact congrArg Prod.snd (hfa.trans hg2)
                · apply exists_of_snd
                  simp only [GGUF.read, hb1]
                  rw [if_neg hmag]
                  simp only [hb2, hb3, hlen]
                  exact hfa

/-- Codes above 12 hit the catch-all arm of `try_from`. -/
theorem try_from_unknown (code : Nat) (h : 12 < code) :
    GGUfMetadataValueType.try_from code = .error (.UnknownValueType code) := by
  obtain ⟨k, rfl⟩ : ∃ k, code = k + 13 := ⟨code - 13, by omega⟩
  rfl

/-- The metadata loop only appends to `metadata_kv` — whatever the outcome. -/
theorem parse_metadata_kv_loop_extends (fuel : Nat) :
    ∀ (c : Nat) (g : GGUF) (s : List Nat),
      ∃ l, (GGUF.parse_metadata_kv_loop fuel c g s).1.metadata_kv = g.metadata_kv ++ l := by
  intro c
  induction c with
  | zero => intro g s; exact ⟨[], by simp [GGUF.parse_metadata_kv_loop]⟩
  | succ c ih =>
    intro g s
    cases hpo : GGUF.parse_one_metadata_kv fuel s with
    | error e => exact ⟨[], by simp [GGUF.parse_metadata_kv_loop, hpo]⟩
    | ok p =>
      obtain ⟨entry, s1⟩ := p
      obtain ⟨l, hl⟩ := ih { g with metadata_kv := g.metadata_kv ++ [entry] } s1
      refine ⟨entry :: l, ?_⟩
      have hstep : GGUF.parse_metadata_kv_loop fuel (c + 1) g s =
          GGUF.parse_metadata_kv_loop fuel c
            { g with metadata_kv := g.metadata_kv ++ [entry] } s1 := by
        simp [GGUF.parse_metadata_kv_loop, hpo]
      rw [hstep, hl]
      simp

/-- Dissection of `GGUF::read`'s returned container: either the metadata table
is untouched (failure before the metadata loop) or it is whatever the metadata
loop produced, started from the caller's table. -/
theorem gguf_read_fst_cases (g : GGUF) (s : List Nat) :
    (GGUF.read g s).1.metadata_kv = g.metadata_kv ∨
    ∃ fuel c g3 s3, g3.metadata_kv = g.metadata_kv ∧
      (GGUF.read g s).1 = (GGUF.parse_metadata_kv_loop fuel c g3 s3).1 := by
  simp only [GGUF.read]
  cases hrb1 : readBytes 8 s with
  | error e => left; rfl
  | ok p1 =>
    obtain ⟨header, s1⟩ := p1
    simp only [hrb1]
    by_cases hmag : header.getD 0 0 ≠ 71 ∧ header.getD 1 0 ≠ 71 ∧ header.getD 2 0 ≠ 85 ∧
        header.getD 3 0 ≠ 70
    · rw [if_pos hmag]
      left
      rfl
    · rw [if_neg hmag]
      cases hrb2 : readBytes 8 s1 with
      | error e => left; rfl
      | ok p2 =>
        obtain ⟨h2, s2⟩ := p2
        simp only [hrb2]
        cases hrb3 : readBytes 8 s2 with
        | error e => left; rfl
        | ok p3 =>
          obtain ⟨h3, s3⟩ := p3
          simp only [hrb3]
          right
          exact ⟨s.length + 1, leBytes h3,
            { g with version := leBytes (header.drop 4), tensor_count := leBytes h2, metadata_kv_count := leBytes h3 },
            s3, rfl, rfl⟩

/-- `GGUF::read` only ever appends to the metadata table. -/
theorem gguf_read_extends (g : GGUF) (s : List Nat) :
    ∃ l, (GGUF.read g s).1.metadata_kv = g.metadata_kv ++ l := by
  rcases gguf_read_fst_cases g s with h | ⟨fuel, c, g3, s3, hmk, hfst⟩
  · exact ⟨[], by rw [h]; simp⟩
  · obtain ⟨l, hl⟩ := parse_metadata_kv_loop_extends fuel c g3 s3
    exact ⟨l, by rw [hfst, hl, hmk]⟩


/-- The value decoder returns a value whose discriminant is the tag it was
asked to decode. -/
theorem parse_metadata_value_discr (fuel : Nat) (t : GGUfMetadataValueType) (s : List Nat)
    (v : GGUFMetadataValue) (r : List Nat)
    (h : GGUF.parse_metadata_value fuel t s = .ok (v, r)) : v.discr = t := by
  cases fuel with
  | zero => exact absurd h (by simp [GGUF.parse_metadata_value])
  | succ fuel =>
    cases t with
    | String =>
      obtain ⟨lb, s1, hx, hk⟩ := pstep_ok h
      obtain ⟨bs, s2, hx2, hk2⟩ := pstep_ok hk
      by_cases hu : validUtf8 bs
      · rw [if_pos hu] at hk2
        simp only [Except.ok.injEq, Prod.mk.injEq] at hk2
        rw [← hk2.1]
        rfl
      · rw [if_neg hu] at hk2
        exact absurd hk2 (by simp)
    | Array =>
      obtain ⟨vt, s1, hx, hk⟩ := pstep_ok h
      cases htf : GGUfMetadataValueType.try_from (leBytes vt) with
      | error e => rw [htf] at hk; exact absurd hk (by simp)
      | ok elem_type =>
        rw [htf] at hk
        obtain ⟨lb, s2, hx2, hk2⟩ := pstep_ok hk
        obtain ⟨vs, s3, hx3, hk3⟩ := pstep_ok hk2
        simp only [Except.ok.injEq, Prod.mk.injEq] at hk3
        rw [← hk3.1]
        rfl
    | UInt8 | Int8 | UInt16 | Int16 | UInt32 | Int32 | Float32 | Bool | UInt64 | Int64
    | Float64 =>
      obtain ⟨a, s1, hx, hk⟩ := pstep_ok h
      simp only [Except.ok.injEq, Prod.mk.injEq] at hk
      rw [← hk.1]
      rfl

/-- Every entry the per-entry parser produces carries a value matching its
declared type tag — by construction. -/
theorem parse_one_metadata_kv_discr (fuel : Nat) (s : List Nat) (entry : GGUFMetadata)
    (s1 : List Nat) (h : GGUF.parse_one_metadata_kv fuel s = .ok (entry, s1)) :
    entry.value_type = entry.value.discr := by
  obtain ⟨kl, t1, hx1, hk1⟩ := pstep_ok h
  obtain ⟨key, t2, hx2, hk2⟩ := pstep_ok hk1
  by_cases hu : validUtf8 key
  · rw [if_pos hu] at hk2
    obtain ⟨vt, t3, hx3, hk3⟩ := pstep_ok hk2
    cases htf : GGUfMetadataValueType.try_from (leBytes vt) with
    | error e => rw [htf] at hk3; exact absurd hk3 (by simp)
    | ok value_type =>
      rw [htf] at hk3
      obtain ⟨value, t4, hx4, hk4⟩ := pstep_ok hk3
      simp only [Except.ok.injEq, Prod.mk.injEq] at hk4
      have hv := parse_metadata_value_discr fuel value_type t3 value t4 hx4
      rw [← hk4.1]
      exact hv.symm
  · rw [if_neg hu] at hk2
    exact absurd hk2 (by simp)

/-- The loop preserves the per-entry tag/value agreement. -/
theorem parse_metadata_kv_loop_discr (fuel : Nat) :
    ∀ (c : Nat) (g : GGUF) (s : List Nat),
      (∀ e ∈ g.metadata_kv, e.value_type = e.value.discr) →
      ∀ e ∈ (GGUF.parse_metadata_kv_loop fuel c g s).1.metadata_kv,
        e.value_type = e.value.discr := by
  intro c
  induction c with
  | zero => intro g s hg; exact hg
  | succ c ih =>
    intro g s hg
    cases hpo : GGUF.parse_one_metadata_kv fuel s with
    | error e =>
      have hstep : (GGUF.parse_metadata_kv_loop fuel (c + 1) g s).1 = g := by
        simp [GGUF.parse_metadata_kv_loop, hpo]
      rw [hstep]
      exact hg
    | ok p =>
      obtain ⟨entry, s1⟩ := p
      have hstep : GGUF.parse_metadata_kv_loop fuel (c + 1) g s =
          GGUF.parse_metadata_kv_loop fuel c
            { g with metadata_kv := g.metadata_kv ++ [entry] } s1 := by
        simp [GGUF.parse_metadata_kv_loop, hpo]
      rw [hstep]
      apply ih
      intro e he
      rcases List.mem_append.mp he with h1 | h1
      · exact hg e h1
      · rw [List.mem_singleton.mp h1]
        exact parse_one_metadata_kv_discr fuel s entry s1 hpo


/-- A successful loop run appends exactly the file-order entry sequence. -/
theorem parse_metadata_kv_loop_entries (fuel : Nat) :
    ∀ (c : Nat) (g g' : GGUF) (s r : List Nat),
      GGUF.parse_metadata_kv_loop fuel c g s = (g', .ok r) →
      ∃ es, decode_in_file_order fuel c s = .ok (es, r) ∧
        g'.metadata_kv = g.metadata_kv ++ es := by
  intro c
  induction c with
  | zero =>
    intro g g' s r h
    simp only [GGUF.parse_metadata_kv_loop, Prod.mk.injEq, Except.ok.injEq] at h
    obtain ⟨hg, hr⟩ := h
    subst hg; subst hr
    exact ⟨[], rfl, by simp⟩
  | succ c ih =>
    intro g g' s r h
    simp only [GGUF.parse_metadata_kv_loop] at h
    cases hpo : GGUF.parse_one_metadata_kv fuel s with
    | error e => rw [hpo] at h; exact absurd h (by simp)
    | ok p =>
      obtain ⟨entry, s1⟩ := p
      rw [hpo] at h
      obtain ⟨es, hd, hm⟩ := ih _ g' s1 r h
      refine ⟨entry :: es, ?_, ?_⟩
      · simp [decode_in_file_order, hpo, hd, pstep]
      · rw [hm]
        simp

/-! ### Claim theorems -/

/-- **C1** (code bug evidence).  The source's magic check combines the four
byte inequalities with `&&`, so it rejects only when *all four* bytes differ.
Corrupting any single magic byte (here each of the four positions in turn,
with version 3 and empty metadata following) is *not* rejected: `read`
succeeds and even interprets the version field, where the spec demands a
`NotThisFormat` failure before any header field is interpreted.  Only when
every magic byte differs (last conjunct) does the check fire. -/
theorem C1_single_byte_magic_corruption_accepted :
    GGUF.read GGUF.new [0, 71, 85, 70, 3, 0, 0, 0,
      0, 0, 0, 0, 0, 0, 0, 0, 0, 0, 0, 0, 0, 0, 0, 0] = (⟨3, 0, 0, []⟩, .ok []) ∧
    GGUF.read GGUF.new [71, 0, 85, 70, 3, 0, 0, 0,
      0, 0, 0, 0, 0, 0, 0, 0, 0, 0, 0, 0, 0, 0, 0, 0] = (⟨3, 0, 0, []⟩, .ok []) ∧
    GGUF.read GGUF.new [71, 71, 0, 70, 3, 0, 0, 0,
      0, 0, 0, 0, 0, 0, 0, 0, 0, 0, 0, 0, 0, 0, 0, 0] = (⟨3, 0, 0, []⟩, .ok []) ∧
    GGUF.read GGUF.new [71, 71, 85, 0, 3, 0, 0, 0,
      0, 0, 0, 0, 0, 0, 0, 0, 0, 0, 0, 0, 0, 0, 0, 0] = (⟨3, 0, 0, []⟩, .ok []) ∧
    GGUF.read GGUF.new [0, 0, 0, 0, 3, 0, 0, 0,
      0, 0, 0, 0, 0, 0, 0, 0, 0, 0, 0, 0, 0, 0, 0, 0] =
      (GGUF.new, .error .NotThisFormat) :=
  ⟨rfl, rfl, rfl, rfl, rfl⟩

/-- **C2.** A failing `read` is all-or-nothing from the caller's point of
view: the caller-facing result is the error, never a container; and the
entries already pushed before the failure are not retracted (the mutated
container extends the initial table). -/
theorem C2_all_or_nothing :
    (∀ s g' e, GGUF.read GGUF.new s = (g', .error e) → GGUF.read_result s = .error e) ∧
    (∀ g s g' e, GGUF.read g s = (g', .error e) →
      ∃ l, g'.metadata_kv = g.metadata_kv ++ l) := by
  constructor
  · intro s g' e h
    unfold GGUF.read_result
    rw [h]
  · intro g s g' e h
    have hx := gguf_read_extends g s
    rwa [h] at hx

/-- Witness for C2 at the empty stream (header read fails with `Truncated`). -/
theorem C2_witness :
    GGUF.read_result [] = .error .Truncated ∧
    ∃ l, GGUF.new.metadata_kv = GGUF.new.metadata_kv ++ l :=
  ⟨C2_all_or_nothing.1 [] GGUF.new .Truncated rfl,
   C2_all_or_nothing.2 GGUF.new [] GGUF.new .Truncated rfl⟩


/-- Witness for C3: cutting the sample stream at byte 10 yields `Truncated`. -/
theorem C3_witness :
    ∃ g2, GGUF.read GGUF.new (sampleStream.take 10) = (g2, .error .Truncated) :=
  C3_truncation_yields_Truncated GGUF.new sampleStream
    ⟨3, 0, 1, [⟨[97, 110, 115, 119, 101, 114], .Int32, .Int32 42⟩]⟩ [] rfl 10 (by decide)

/-- **C4.** Codes 0–12 resolve to the 13 discriminants in order; any other
32-bit code fails with `UnknownValueType` carrying that code — both in the
registry itself, at an array's element-type position, and at an entry's
type-tag position (where the loop returns the untouched container with the
error). -/
theorem C4_unknown_value_type :
    (GGUfMetadataValueType.try_from 0 = .ok .UInt8 ∧
     GGUfMetadataValueType.try_from 1 = .ok .Int8 ∧
     GGUfMetadataValueType.try_from 2 = .ok .UInt16 ∧
     GGUfMetadataValueType.try_from 3 = .ok .Int16 ∧
     GGUfMetadataValueType.try_from 4 = .ok .UInt32 ∧
     GGUfMetadataValueType.try_from 5 = .ok .Int32 ∧
     GGUfMetadataValueType.try_from 6 = .ok .Float32 ∧
     GGUfMetadataValueType.try_from 7 = .ok .Bool ∧
     GGUfMetadataValueType.try_from 8 = .ok .String ∧
     GGUfMetadataValueType.try_from 9 = .ok .Array ∧
     GGUfMetadataValueType.try_from 10 = .ok .UInt64 ∧
     GGUfMetadataValueType.try_from 11 = .ok .Int64 ∧
     GGUfMetadataValueType.try_from 12 = .ok .Float64) ∧
    (∀ code, 12 < code → GGUfMetadataValueType.try_from code =
      .error (.UnknownValueType code)) ∧
    (∀ fuel code rest, 12 < code → code < 2 ^ 32 →
      GGUF.parse_metadata_value (fuel + 1) .Array (leN 4 code ++ rest) =
        .error (.UnknownValueType code)) ∧
    (∀ fuel count g key code rest, validUtf8 key → 12 < code → code < 2 ^ 32 →
      key.length < 2 ^ 64 →
      GGUF.parse_metadata_kv_loop fuel (count + 1) g
          (leN 8 key.length ++ (key ++ (leN 4 code ++ rest))) =
        (g, .error (.UnknownValueType code))) := by
  refine ⟨⟨rfl, rfl, rfl, rfl, rfl, rfl, rfl, rfl, rfl, rfl, rfl, rfl, rfl⟩,
    try_from_unknown, ?_, ?_⟩
  · intro fuel code rest hgt hlt
    show pstep (readBytes 4 (leN 4 code ++ rest)) _ = _
    rw [readBytes_exact_append 4 (leN 4 code) rest (leN_length 4 code)]
    simp only [pstep]
    rw [leBytes_leN 4 code (by rw [show (256 : Nat) ^ 4 = 2 ^ 32 from by norm_num]; exact hlt)]
    rw [try_from_unknown code hgt]
  · intro fuel count g key code rest hu hgt hlt hklen
    have hone : GGUF.parse_one_metadata_kv fuel
        (leN 8 key.length ++ (key ++ (leN 4 code ++ rest))) =
        .error (.UnknownValueType code) := by
      show pstep (readBytes 8 _) _ = _
      rw [readBytes_exact_append 8 (leN 8 key.length) _ (leN_length 8 key.length)]
      simp only [pstep]
      rw [leBytes_leN 8 key.length
        (by rw [show (256 : Nat) ^ 8 = 2 ^ 64 from by norm_num]; exact hklen)]
      rw [readBytes_exact_append key.length key _ rfl]
      simp only [pstep]
      rw [if_pos hu]
      rw [readBytes_exact_append 4 (leN 4 code) rest (leN_length 4 code)]
      simp only [pstep]
      rw [leBytes_leN 4 code
        (by rw [show (256 : Nat) ^ 4 = 2 ^ 32 from by norm_num]; exact hlt)]
      rw [try_from_unknown code hgt]
    simp [GGUF.parse_metadata_kv_loop, hone]

/-- Witness for C4 at code 13 (the §8 scenario). -/
theorem C4_witness :
    GGUfMetadataValueType.try_from 13 = .error (.UnknownValueType 13) ∧
    GGUF.parse_metadata_value 1 .Array (leN 4 13 ++ [9, 9]) =
      .error (.UnknownValueType 13) ∧
    GGUF.parse_metadata_kv_loop 1 1 GGUF.new (leN 8 1 ++ ([107] ++ (leN 4 13 ++ []))) =
      (GGUF.new, .error (.UnknownValueType 13)) :=
  ⟨C4_unknown_value_type.2.1 13 (by decide),
   C4_unknown_value_type.2.2.1 0 13 [9, 9] (by decide) (by decide),
   C4_unknown_value_type.2.2.2 1 0 GGUF.new [107] 13 [] (by decide) (by decide) (by decide)
     (by decide)⟩

/-- **C5.** The §8 scenario: magic, version 3, tensor_count 0, one entry
`{key: "answer" (bytes 97 110 115 119 101 114), type Int32, value 42}` decodes
to exactly that container, consuming the whole stream. -/
theorem C5_scenario_answer_42 :
    GGUF.read GGUF.new sampleStream =
      (⟨3, 0, 1, [⟨[97, 110, 115, 119, 101, 114], .Int32, .Int32 42⟩]⟩, .ok []) := rfl

/-- **C6.** For every element-type code 0–12 (including `Array` itself, code
9), an array with element count 0 decodes to an empty element sequence,
consuming exactly the 12 framing bytes (4-byte element tag + 8-byte count). -/
theorem C6_empty_array :
    ∀ fuel code rest, code ≤ 12 →
      ∃ t, GGUfMetadataValueType.try_from code = .ok t ∧
        GGUF.parse_metadata_value (fuel + 1) .Array (leN 4 code ++ (leN 8 0 ++ rest)) =
          .ok (.Array t 0 [], rest) := by
  intro fuel code rest hc
  obtain ⟨t, ht⟩ : ∃ t, GGUfMetadataValueType.try_from code = .ok t := by
    interval_cases code <;> exact ⟨_, rfl⟩
  refine ⟨t, ht, ?_⟩
  simp only [GGUF.parse_metadata_value]
  rw [readBytes_exact_append 4 (leN 4 code) _ (leN_length 4 code)]
  simp only [pstep]
  rw [leBytes_leN 4 code (by rw [show (256 : Nat) ^ 4 = 2 ^ 32 from by norm_num]; omega)]
  simp only [ht]
  rw [readBytes_exact_append 8 (leN 8 0) rest (leN_length 8 0)]
  simp only [pstep]
  rw [show leBytes (leN 8 0) = 0 from leBytes_leN 8 0 (by norm_num)]
  rfl

/-- Witness for C6 at element type `Array` (code 9) with trailing byte 42. -/
theorem C6_witness :
    ∃ t, GGUfMetadataValueType.try_from 9 = .ok t ∧
      GGUF.parse_metadata_value 1 .Array (leN 4 9 ++ (leN 8 0 ++ [42])) =
        .ok (.Array t 0 [], [42]) :=
  C6_empty_array 0 9 [42] (by decide)

/-- **C7.** String decode: an 8-byte LE length `n`, then exactly `n` bytes,
then UTF-8 validation — invalid bytes fail with `InvalidUtf8`, and a zero
length decodes to the empty string. -/
theorem C7_string_decoding :
    (∀ fuel bytes rest, bytes.length < 2 ^ 64 →
      GGUF.parse_metadata_value (fuel + 1) .String (leN 8 bytes.length ++ (bytes ++ rest)) =
        if validUtf8 bytes then .ok (.String bytes, rest) else .error .InvalidUtf8) ∧
    (∀ fuel rest, GGUF.parse_metadata_value (fuel + 1) .String (leN 8 0 ++ rest) =
      .ok (.String [], rest)) := by
  constructor
  · intro fuel bytes rest hlen
    show pstep (readBytes 8 _) _ = _
    rw [readBytes_exact_append 8 (leN 8 bytes.length) _ (leN_length 8 bytes.length)]
    simp only [pstep]
    rw [leBytes_leN 8 bytes.length
      (by rw [show (256 : Nat) ^ 8 = 2 ^ 64 from by norm_num]; exact hlen)]
    rw [readBytes_exact_append bytes.length bytes rest rfl]
  · intro fuel rest
    show pstep (readBytes 8 _) _ = _
    rw [readBytes_exact_append 8 (leN 8 0) rest (leN_length 8 0)]
    simp only [pstep]
    rw [show leBytes (leN 8 0) = 0 from leBytes_leN 8 0 (by norm_num)]
    rw [show readBytes 0 rest = .ok ([], rest) from by simp [readBytes]]
    rfl

/-- Witness for C7: a lone byte 255 is invalid UTF-8; length 0 gives "". -/
theorem C7_witness :
    (GGUF.parse_metadata_value 1 .String (leN 8 1 ++ ([255] ++ [])) =
      if validUtf8 [255] then .ok (.String [255], []) else .error .InvalidUtf8) ∧
    GGUF.parse_metadata_value 1 .String (leN 8 0 ++ [7]) = .ok (.String [], [7]) :=
  ⟨C7_string_decoding.1 0 [255] [] (by decide), C7_string_decoding.2 0 [7]⟩

/-- **C8.** A successful loop run appends exactly the sequence of entries
decoded sequentially from the stream, in file order (`decode_in_file_order`),
with no key-based filtering; and a concrete stream with two entries sharing
the key `[107]` retains both, in stream order. -/
theorem C8_file_order_and_duplicates :
    (∀ fuel c g s g' r, GGUF.parse_metadata_kv_loop fuel c g s = (g', .ok r) →
      ∃ es, decode_in_file_order fuel c s = .ok (es, r) ∧
        g'.metadata_kv = g.metadata_kv ++ es) ∧
    GGUF.read GGUF.new
        [71, 71, 85, 70, 3, 0, 0, 0,
         0, 0, 0, 0, 0, 0, 0, 0,
         2, 0, 0, 0, 0, 0, 0, 0,
         1, 0, 0, 0, 0, 0, 0, 0, 107, 0, 0, 0, 0, 1,
         1, 0, 0, 0, 0, 0, 0, 0, 107, 0, 0, 0, 0, 2] =
      (⟨3, 0, 2, [⟨[107], .UInt8, .Uint8 1⟩, ⟨[107], .UInt8, .Uint8 2⟩]⟩, .ok []) :=
  ⟨fun fuel c g s g' r h => parse_metadata_kv_loop_entries fuel c g g' s r h, rfl⟩

/-- Witness for C8 at the trivial zero-count loop. -/
theorem C8_witness :
    ∃ es, decode_in_file_order 1 0 [5] = .ok (es, [5]) ∧
      GGUF.new.metadata_kv = GGUF.new.metadata_kv ++ es :=
  C8_file_order_and_duplicates.1 1 0 GGUF.new [5] GGUF.new [5] rfl

/-- **C9.** Every entry of a successfully read container carries a value
whose discriminant equals the entry's declared type tag. -/
theorem C9_declared_type_matches_value (s : List Nat) (g' : GGUF) (r : List Nat)
    (h : GGUF.read GGUF.new s = (g', .ok r)) :
    ∀ e ∈ g'.metadata_kv, e.value_type = e.value.discr := by
  have h1 : (GGUF.read GGUF.new s).1 = g' := by rw [h]
  rcases gguf_read_fst_cases GGUF.new s with hc | ⟨fuel, c, g3, s3, hmk, hfst⟩
  · rw [h1] at hc
    rw [hc]
    intro e he
    simp [GGUF.new] at he
  · rw [h1] at hfst
    rw [hfst]
    exact parse_metadata_kv_loop_discr fuel c g3 s3
      (by rw [hmk]; intro e he; simp [GGUF.new] at he)

/-- Witness for C9 at the sample stream's single `Int32` entry. -/
theorem C9_witness :
    GGUfMetadataValueType.Int32 = (GGUFMetadataValue.Int32 42).discr :=
  C9_declared_type_matches_value sampleStream
    ⟨3, 0, 1, [⟨[97, 110, 115, 119, 101, 114], .Int32, .Int32 42⟩]⟩ [] rfl
    ⟨[97, 110, 115, 119, 101, 114], .Int32, .Int32 42⟩ (List.Mem.head _)

/-- **C10.** The read path only appends to the metadata table: a fresh
container starts empty; any read (also a failing one) leaves the initial
entries in place, extending them; and a second read on the same container
appends after the first read's entries. -/
theorem C10_append_only :
    GGUF.new.metadata_kv = [] ∧
    (∀ g s, ∃ l, (GGUF.read g s).1.metadata_kv = g.metadata_kv ++ l) ∧
    (∀ g s1 s2, ∃ l,
      (GGUF.read (GGUF.read g s1).1 s2).1.metadata_kv =
        (GGUF.read g s1).1.metadata_kv ++ l) :=
  ⟨rfl, gguf_read_extends, fun g s1 s2 => gguf_read_extends (GGUF.read g s1).1 s2⟩

/-- Witness for C10 at a fresh container and the empty stream. -/
theorem C10_witness :
    ∃ l, (GGUF.read GGUF.new []).1.metadata_kv = GGUF.new.metadata_kv ++ l :=
  C10_append_only.2.1 GGUF.new []
